import Mathlib

/- Verification of the game-state model and win-detection engine of a
   console Tic-Tac-Toe / Gomoku program (src/app.ts).

   Cells are strings in the source and every mark ever placed is a single
   character (the two players are named 'X' and 'O'), so a cell is
   modelled as `Option Char`: `none` is the empty string '', `some c` is
   the one-character mark c.  Strings that only matter as character
   sequences (the raw move input, the concatenated gameboard) are
   modelled as `List Char`. -/

/-- Cell of the gameboard: `none` models the empty string '', `some c` a one-character mark. -/
abbrev Cell := Option Char

/-- Gameboard: list of rows, mirroring the source's string[][]. -/
abbrev Gameboard := List (List Cell)

/-- A player: a one-character name and a cumulative win counter. -/
structure Player where
  name : Char
  totalWins : Nat
deriving DecidableEq

/-- The game state.  The source keeps the two players in an array of length 2;
    here they are the fields player0 and player1, read through getPlayer.
    remainingEmptyCells is an Int because JS numbers can go negative. -/
structure Game where
  type : String
  player0 : Player
  player1 : Player
  gameboard : Gameboard
  turn : Nat
  winCase : Nat
  remainingEmptyCells : Int
deriving DecidableEq

/-- A parsed move: row and column as JS numbers (Int, so that negative
    coordinates can be validated). -/
structure Input where
  row : Int
  col : Int
deriving DecidableEq

/-- game.players[i] for i ∈ {0,1}. -/
def getPlayer (g : Game) (i : Nat) : Player :=
  if i == 0 then g.player0 else g.player1

def TIC_TAC_TOE : String := "tic-tac-toe"

def GOMOKU : String := "gomoku"

/-- initGameboard: a size × size grid, every cell the empty string. -/
def initGameboard (size : Nat) : Gameboard :=
  List.replicate size (List.replicate size (none : Cell))

/-- initPlayers: players X and O, zero wins each. -/
def initPlayers : Player × Player :=
  ({ name := 'X', totalWins := 0 }, { name := 'O', totalWins := 0 })

/-- initGame: tic-tac-toe is 3×3 with win length 3, anything else (the
    gomoku branch) is 10×10 with win length 5. -/
def initGame (gameType : String) : Game :=
  let gameboardSize : Nat := if gameType == TIC_TAC_TOE then 3 else 10
  let winCase : Nat := if gameType == TIC_TAC_TOE then 3 else 5
  { type := gameType
    player0 := initPlayers.1
    player1 := initPlayers.2
    gameboard := initGameboard gameboardSize
    turn := 0
    winCase := winCase
    remainingEmptyCells := (gameboardSize * gameboardSize : Nat) }

/-- gameboard[r][c]; out-of-range reads default to empty (undefined in JS). -/
def cellAt (gb : Gameboard) (r c : Nat) : Cell :=
  (gb.getD r []).getD c none

/-- updateGame: place the current player's mark, decrement the empty-cell
    counter, flip the turn. -/
def updateGame (input : Input) (g : Game) : Game :=
  let r := input.row.toNat
  let c := input.col.toNat
  { g with
    gameboard := g.gameboard.set r ((g.gameboard.getD r []).set c (some (getPlayer g g.turn).name))
    remainingEmptyCells := g.remainingEmptyCells - 1
    turn := if g.turn == 0 then 1 else 0 }

/-- JS \s (whitespace class) used by the validation regex and trim. -/
def isSpaceChar (c : Char) : Bool := c.isWhitespace

/-- Test of the source regex ^\s*\d+,\s*\d+\s*$ against the raw input:
    optional whitespace, digits, a comma, optional whitespace, digits,
    optional whitespace. -/
def matchesInputPattern (s : List Char) : Bool :=
  let s1 := s.dropWhile isSpaceChar
  let d1 := s1.takeWhile Char.isDigit
  let r1 := s1.dropWhile Char.isDigit
  match d1, r1 with
  | [], _ => false
  | _ :: _, ',' :: rest =>
    let d2 := (rest.dropWhile isSpaceChar).takeWhile Char.isDigit
    let r2 := (rest.dropWhile isSpaceChar).dropWhile Char.isDigit
    !d2.isEmpty && r2.all isSpaceChar
  | _ :: _, _ => false

/-- String.prototype.trim: strip whitespace from both ends. -/
def trimChars (s : List Char) : List Char :=
  ((s.dropWhile isSpaceChar).reverse.dropWhile isSpaceChar).reverse

/-- parseInt on a string that starts with decimal digits. -/
def parseIntDigits (s : List Char) : Int :=
  (((s.takeWhile Char.isDigit).foldl (fun n c => n * 10 + (c.toNat - 48)) 0 : Nat) : Int)

/-- convertRawInputToInput: regex-check the raw string, then trim, split on
    the comma and parseInt both parts. -/
def convertRawInputToInput (rawInput : List Char) : Option Input × String :=
  if matchesInputPattern rawInput then
    let parts := (trimChars rawInput).splitOn ','
    let rowStr := parts.getD 0 []
    let colStr := parts.getD 1 []
    (some { row := parseIntDigits (trimChars rowStr), col := parseIntDigits (trimChars colStr) }, "")
  else
    (none, "Invalid input. A valid input should look like this x,y.")

/-- validateInputOutOfBound: row/col must lie in [0, gameboard.length). -/
def validateInputOutOfBound (input : Input) (gameboard : Gameboard) : String :=
  let bound : Int := (gameboard.length : Int) - 1
  if input.row > bound || input.col > bound || input.row < 0 || input.col < 0 then
    "Input out of bound"
  else ""

/-- validateEmptyCell: the addressed cell must still be empty. -/
def validateEmptyCell (input : Input) (gameboard : Gameboard) : String :=
  let cell : Cell := cellAt gameboard input.row.toNat input.col.toNat
  if cell == none then "" else "This cell has already been placed"

/-- validateInput: parse, then bounds check, then occupancy check,
    short-circuiting on the first failure. -/
def validateInput (rawInput : List Char) (gameboard : Gameboard) : Option Input × String :=
  let conv := convertRawInputToInput rawInput
  match conv.1 with
  | none => (none, conv.2)
  | some input =>
    if conv.2.length != 0 then (none, conv.2)
    else
      let oobError := validateInputOutOfBound input gameboard
      if oobError.length != 0 then (some input, oobError)
      else (some input, validateEmptyCell input gameboard)

/-- The character encoding used by concatGameboard: '' ↦ 'E', a mark ↦ its character. -/
def encodeCell (c : Cell) : Char :=
  match c with
  | none => 'E'
  | some m => m

/-- concatGameboard: concatenate every row (empty cells as 'E'), appending
    the row break 'B' after each row. -/
def concatGameboard (gameboard : Gameboard) : List Char :=
  (gameboard.map (fun row => row.map encodeCell ++ ['B'])).flatten

/-- Test of the regex mark{count} (mark is a single, non-special character):
    true iff the string contains count consecutive copies of mark. -/
def regexRunTest (mark : Char) (count : Nat) (s : List Char) : Bool :=
  decide (List.replicate count mark <:+: s)

/-- hasWinner: either player's mark repeated winCase times occurs in the
    concatenated gameboard. -/
def hasWinner (concatenatedGameboard : List Char) (game : Game) : Bool :=
  regexRunTest game.player0.name game.winCase concatenatedGameboard ||
  regexRunTest game.player1.name game.winCase concatenatedGameboard

/-- transposeGameboard: gameboard[0].map((_, i) => gameboard.map(row => row[i])). -/
def transposeGameboard (gameboard : Gameboard) : Gameboard :=
  (List.range (gameboard.headD []).length).map
    (fun i => gameboard.map (fun row => row.getD i none))

/-- diagonalizeGameboard: sequence i (0 ≤ i ≤ 2(size-1)) collects
    gameboard[j][i-j] for ascending j with both indices in bounds. -/
def diagonalizeGameboard (gameboard : Gameboard) : Gameboard :=
  let size := gameboard.length
  (List.range (2 * size - 1)).map (fun i =>
    (List.range (i + 1)).filterMap (fun j =>
      if j < size ∧ i - j < size then some (cellAt gameboard j (i - j)) else none))

/-- antiDiagonalizeGameboard: sequence i collects gameboard[j][size-1-i+j]
    for ascending j with j in bounds and the column index non-negative. -/
def antiDiagonalizeGameboard (gameboard : Gameboard) : Gameboard :=
  let size := gameboard.length
  (List.range (2 * size - 1)).map (fun i =>
    (List.range (i + 1)).filterMap (fun j =>
      if j < size ∧ 0 ≤ (size : Int) - 1 - i + j then
        some (cellAt gameboard j ((size : Int) - 1 - i + j).toNat)
      else none))

/-- The winner-announcement string `Player ${name} wins!`. -/
def winMessage (name : Char) : String :=
  "Player " ++ String.mk [name] ++ " wins!"

/-- players[i].totalWins++ on the game state. -/
def addWin (g : Game) (i : Nat) : Game :=
  if i == 0 then { g with player0 := { g.player0 with totalWins := g.player0.totalWins + 1 } }
  else { g with player1 := { g.player1 with totalWins := g.player1.totalWins + 1 } }

/-- The index players[lastMove] of the player who just moved: turn === 0 ? 1 : 0. -/
def lastMoveIndex (g : Game) : Nat := if g.turn == 0 then 1 else 0

/-- checkForWin: try the four linearizations in order (rows, columns,
    diagonals, anti-diagonals); on the first match report the mover as the
    winner and bump that player's counter; otherwise report a tie exactly
    when no empty cell remains.  Returns the message together with the
    updated game state (the source mutates game.players in place). -/
def checkForWin (game : Game) : String × Game :=
  let lastMove := lastMoveIndex game
  if hasWinner (concatGameboard game.gameboard) game then
    (winMessage (getPlayer game lastMove).name, addWin game lastMove)
  else if hasWinner (concatGameboard (transposeGameboard game.gameboard)) game then
    (winMessage (getPlayer game lastMove).name, addWin game lastMove)
  else if hasWinner (concatGameboard (diagonalizeGameboard game.gameboard)) game then
    (winMessage (getPlayer game lastMove).name, addWin game lastMove)
  else if hasWinner (concatGameboard (antiDiagonalizeGameboard game.gameboard)) game then
    (winMessage (getPlayer game lastMove).name, addWin game lastMove)
  else if game.remainingEmptyCells == 0 then ("The game is tied!", game)
  else ("", game)

/-- Number of empty cells on the board (the quantity tracked by
    remainingEmptyCells). -/
def countEmptyCells (gb : Gameboard) : Nat :=
  (gb.map (fun row => row.countP (fun c => c == none))).sum

/-- A board is square: every row has the board's own length. -/
def isSquareBoard (gb : Gameboard) : Prop :=
  ∀ row ∈ gb, row.length = gb.length

instance (gb : Gameboard) : Decidable (isSquareBoard gb) :=
  inferInstanceAs (Decidable (∀ row ∈ gb, row.length = gb.length))

/-- A horizontal run of k marks m starting at (r, c). -/
def RowRun (gb : Gameboard) (m : Char) (k r c : Nat) : Prop :=
  r < gb.length ∧ c + k ≤ gb.length ∧ ∀ t ∈ List.range k, cellAt gb r (c + t) = some m

instance (gb : Gameboard) (m : Char) (k r c : Nat) : Decidable (RowRun gb m k r c) :=
  inferInstanceAs (Decidable (_ ∧ _ ∧ ∀ t ∈ List.range k, cellAt gb r (c + t) = some m))

/-- A vertical run of k marks m starting at (r, c). -/
def ColRun (gb : Gameboard) (m : Char) (k r c : Nat) : Prop :=
  c < gb.length ∧ r + k ≤ gb.length ∧ ∀ t ∈ List.range k, cellAt gb (r + t) c = some m

instance (gb : Gameboard) (m : Char) (k r c : Nat) : Decidable (ColRun gb m k r c) :=
  inferInstanceAs (Decidable (_ ∧ _ ∧ ∀ t ∈ List.range k, cellAt gb (r + t) c = some m))

/-- A top-left-to-bottom-right run of k marks m starting at (r, c). -/
def DiagRun (gb : Gameboard) (m : Char) (k r c : Nat) : Prop :=
  r + k ≤ gb.length ∧ c + k ≤ gb.length ∧ ∀ t ∈ List.range k, cellAt gb (r + t) (c + t) = some m

instance (gb : Gameboard) (m : Char) (k r c : Nat) : Decidable (DiagRun gb m k r c) :=
  inferInstanceAs (Decidable (_ ∧ _ ∧ ∀ t ∈ List.range k, cellAt gb (r + t) (c + t) = some m))

/-- A top-right-to-bottom-left run of k marks m starting at (r, c). -/
def AntiDiagRun (gb : Gameboard) (m : Char) (k r c : Nat) : Prop :=
  r + k ≤ gb.length ∧ c < gb.length ∧ k ≤ c + 1 ∧
    ∀ t ∈ List.range k, cellAt gb (r + t) (c - t) = some m

instance (gb : Gameboard) (m : Char) (k r c : Nat) : Decidable (AntiDiagRun gb m k r c) :=
  inferInstanceAs (Decidable (_ ∧ _ ∧ _ ∧ ∀ t ∈ List.range k, cellAt gb (r + t) (c - t) = some m))

/-- Some run of k marks m in one of the four principal directions. -/
def SomeRun (gb : Gameboard) (m : Char) (k : Nat) : Prop :=
  ∃ r c, RowRun gb m k r c ∨ ColRun gb m k r c ∨ DiagRun gb m k r c ∨ AntiDiagRun gb m k r c

/-- All sequences produced by the four linearizations of a board. -/
def allSequences (gb : Gameboard) : Gameboard :=
  gb ++ transposeGameboard gb ++ diagonalizeGameboard gb ++ antiDiagonalizeGameboard gb

/-- The i-th sequence built by diagonalizeGameboard. -/
def diagRowSrc (gb : Gameboard) (i : Nat) : List Cell :=
  (List.range (i + 1)).filterMap (fun j =>
    if j < gb.length ∧ i - j < gb.length then some (cellAt gb j (i - j)) else none)

/-- The i-th sequence built by antiDiagonalizeGameboard. -/
def antiDiagRowSrc (gb : Gameboard) (i : Nat) : List Cell :=
  (List.range (i + 1)).filterMap (fun j =>
    if j < gb.length ∧ 0 ≤ (gb.length : Int) - 1 - i + j then
      some (cellAt gb j ((gb.length : Int) - 1 - i + j).toNat)
    else none)

/-- The four linearizations tried by checkForWin, as one boolean. -/
def winDetected (g : Game) : Bool :=
  hasWinner (concatGameboard g.gameboard) g ||
  hasWinner (concatGameboard (transposeGameboard g.gameboard)) g ||
  hasWinner (concatGameboard (diagonalizeGameboard g.gameboard)) g ||
  hasWinner (concatGameboard (antiDiagonalizeGameboard g.gameboard)) g

/-- Modelled from the spec formula for the diagonal transform, for
    comparison with the source: sequence d collects cells (r, d-r) for r
    in [max(0, d-N+1), min(d, N-1)]. -/
def diagRowSpec (gb : Gameboard) (n d : Nat) : List Cell :=
  (List.range n).filterMap (fun r =>
    if d + 1 - n ≤ r ∧ r ≤ d ∧ r ≤ n - 1 then some (cellAt gb r (d - r)) else none)

/-- Modelled from the spec formula for the anti-diagonal transform, for
    comparison with the source: sequence d collects cells (r, N-1-d+r)
    for exactly those r with both coordinates in bounds. -/
def antiDiagRowSpec (gb : Gameboard) (n d : Nat) : List Cell :=
  (List.range n).filterMap (fun (r : Nat) =>
    if 0 ≤ (n : Int) - 1 - (d : Int) + (r : Int) ∧ (n : Int) - 1 - (d : Int) + (r : Int) < (n : Int) then
      some (cellAt gb r ((n : Int) - 1 - (d : Int) + (r : Int)).toNat)
    else none)

/-- A 3×3 tic-tac-toe state: X just completed the top row (turn already
    flipped to 1, so the mover is player 0, X). -/
def gDemoXRow : Game :=
  { type := TIC_TAC_TOE
    player0 := { name := 'X', totalWins := 0 }
    player1 := { name := 'O', totalWins := 0 }
    gameboard := [[some 'X', some 'X', some 'X'],
                  [some 'O', some 'O', none],
                  [none, none, none]]
    turn := 1
    winCase := 3
    remainingEmptyCells := 4 }

/-- A 3×3 state whose only winning run belongs to O, while the turn index (1)
    says player 0 (X) just moved. -/
def gDemoORow : Game :=
  { type := TIC_TAC_TOE
    player0 := { name := 'X', totalWins := 0 }
    player1 := { name := 'O', totalWins := 0 }
    gameboard := [[some 'O', some 'O', some 'O'],
                  [some 'X', some 'X', none],
                  [none, none, none]]
    turn := 1
    winCase := 3
    remainingEmptyCells := 4 }

/-- A game record used as the winCase/player-mark environment of the
    run-detector witnesses (its own board is irrelevant to hasWinner). -/
def gDemoEnv : Game :=
  { type := TIC_TAC_TOE
    player0 := { name := 'X', totalWins := 0 }
    player1 := { name := 'O', totalWins := 0 }
    gameboard := []
    turn := 0
    winCase := 3
    remainingEmptyCells := 9 }

/-- A 3×3 state where X just completed the first column (turn flipped to 1). -/
def gDemoXCol : Game :=
  { type := TIC_TAC_TOE
    player0 := { name := 'X', totalWins := 0 }
    player1 := { name := 'O', totalWins := 0 }
    gameboard := [[some 'X', some 'O', none],
                  [some 'X', some 'O', none],
                  [some 'X', none, none]]
    turn := 1
    winCase := 3
    remainingEmptyCells := 4 }

/-- A 3×3 state whose only winning run is O's first column, with the turn
    index (1) saying player 0 (X) just moved. -/
def gDemoOCol : Game :=
  { type := TIC_TAC_TOE
    player0 := { name := 'X', totalWins := 0 }
    player1 := { name := 'O', totalWins := 0 }
    gameboard := [[some 'O', some 'X', none],
                  [some 'O', none, some 'X'],
                  [some 'O', none, none]]
    turn := 1
    winCase := 3
    remainingEmptyCells := 4 }

/-- A 3×3 state with X winning the top row, used for the counter bookkeeping. -/
def gDemoBump : Game :=
  { type := TIC_TAC_TOE
    player0 := { name := 'X', totalWins := 2 }
    player1 := { name := 'O', totalWins := 1 }
    gameboard := [[some 'X', some 'X', some 'X'],
                  [some 'O', some 'O', none],
                  [none, none, none]]
    turn := 1
    winCase := 3
    remainingEmptyCells := 4 }

/-- A fresh 1×1 game, one empty cell remaining. -/
def gDemoTiny : Game :=
  { type := TIC_TAC_TOE
    player0 := { name := 'X', totalWins := 0 }
    player1 := { name := 'O', totalWins := 0 }
    gameboard := [[none]]
    turn := 0
    winCase := 1
    remainingEmptyCells := 1 }

/-- A completely filled 3×3 board with no three-in-a-row anywhere: a draw. -/
def gDemoDraw : Game :=
  { type := TIC_TAC_TOE
    player0 := { name := 'X', totalWins := 0 }
    player1 := { name := 'O', totalWins := 0 }
    gameboard := [[some 'X', some 'O', some 'X'],
                  [some 'X', some 'O', some 'O'],
                  [some 'O', some 'X', some 'X']]
    turn := 0
    winCase := 3
    remainingEmptyCells := 0 }

/-- A 2×2 board with four distinct marks, for exercising the transforms. -/
def gbDemo2 : Gameboard :=
  [[some 'X', some 'O'],
   [some 'A', some 'D']]

/-- A run of k marks cannot be a prefix of a ++ sep :: b without being a
    prefix of a, when the mark differs from the separator. -/
lemma replicate_prefix_append_sep {m sep : Char} {k : Nat} (hk : 1 ≤ k) (hms : m ≠ sep)
    (a b : List Char) :
    List.replicate k m <+: a ++ sep :: b ↔ List.replicate k m <+: a := by
  induction a generalizing k with
  | nil =>
    simp only [List.nil_append, List.prefix_nil]
    constructor
    · intro h
      obtain ⟨j, rfl⟩ : ∃ j, k = j + 1 := ⟨k - 1, by omega⟩
      rw [List.replicate_succ, List.cons_prefix_cons] at h
      exact absurd h.1 hms
    · intro h
      have := congrArg List.length h
      simp at this
      omega
  | cons c a ih =>
    obtain ⟨j, rfl⟩ : ∃ j, k = j + 1 := ⟨k - 1, by omega⟩
    rw [List.replicate_succ, List.cons_append, List.cons_prefix_cons, List.cons_prefix_cons]
    rcases Nat.eq_zero_or_pos j with hj | hj
    · subst hj
      simp
    · rw [ih hj]

/-- A run of k marks inside a ++ sep :: b lies entirely inside a or inside b,
    when the mark differs from the separator. -/
lemma replicate_infix_append_sep {m sep : Char} {k : Nat} (hk : 1 ≤ k) (hms : m ≠ sep)
    (a b : List Char) :
    List.replicate k m <:+: a ++ sep :: b ↔
      List.replicate k m <:+: a ∨ List.replicate k m <:+: b := by
  induction a with
  | nil =>
    simp only [List.nil_append]
    rw [ List.infix_cons_iff]
    have h1 : ¬ List.replicate k m <+: sep :: b := by
      intro h
      obtain ⟨j, rfl⟩ : ∃ j, k = j + 1 := ⟨k - 1, by omega⟩
      rw [List.replicate_succ, List.cons_prefix_cons] at h
      exact hms h.1
    have h2 : ¬ List.replicate k m <:+: ([] : List Char) := by
      intro h
      have := List.IsInfix.length_le h
      simp at this
      omega
    tauto
  | cons c a ih =>
    rw [List.cons_append, List.infix_cons_iff]
    have hpre : List.replicate k m <+: c :: (a ++ sep :: b) ↔ List.replicate k m <+: c :: a := by
      have h := replicate_prefix_append_sep hk hms (c :: a) b
      rw [List.cons_append] at h
      exact h
    rw [hpre, ih]
    conv_rhs => rw [ List.infix_cons_iff]
    tauto

/-- k consecutive entries of l all equal to x give a replicate-k factor of l. -/
lemma replicate_infix_of_getD_run {l : List Cell} {x : Cell} {j k : Nat}
    (hjk : j + k ≤ l.length) (hrun : ∀ t ∈ List.range k, l.getD (j + t) none = x) :
    List.replicate k x <:+: l := by
  have htake : (l.drop j).take k = List.replicate k x := by
    rw [List.eq_replicate_iff]
    constructor
    · rw [List.length_take, List.length_drop]
      omega
    · intro b hb
      rw [List.mem_iff_getElem] at hb
      obtain ⟨i, hi, rfl⟩ := hb
      have hik : i < k := by
        rw [List.length_take, List.length_drop] at hi
        omega
      rw [List.getElem_take, List.getElem_drop]
      have h := hrun i (List.mem_range.mpr hik)
      rw [List.getD_eq_getElem _ _ (by omega)] at h
      exact h
  have h1 : List.replicate k x <+: l.drop j := by
    rw [← htake]
    exact List.take_prefix k (l.drop j)
  exact List.IsInfix.trans (List.IsPrefix.isInfix h1) (List.IsSuffix.isInfix (List.drop_suffix j l))

/-- filterMap over range k, all hits: the result is replicate k x. -/
lemma filterMap_range_eq_replicate {α : Type} {f : Nat → Option α} {k : Nat} {x : α}
    (h : ∀ t ∈ List.range k, f t = some x) :
    (List.range k).filterMap f = List.replicate k x := by
  induction k with
  | zero => simp
  | succ k ih =>
    rw [List.range_succ, List.filterMap_append, List.replicate_succ']
    rw [ih (fun t ht => h t (by rw [List.range_succ]; exact List.mem_append.mpr (Or.inl ht)))]
    have hk := h k (by rw [List.range_succ]; exact List.mem_append.mpr (Or.inr (by simp)))
    simp [List.filterMap_cons, hk]

/-- k consecutive indices of range n that all map to some x give a
    replicate-k factor of the filterMap. -/
lemma replicate_infix_filterMap_range {α : Type} {f : Nat → Option α} {n j k : Nat} {x : α}
    (hjk : j + k ≤ n) (h : ∀ t ∈ List.range k, f (j + t) = some x) :
    List.replicate k x <:+: (List.range n).filterMap f := by
  have e1 : List.range (j + k) = List.range j ++ (List.range k).map (fun t => j + t) :=
    List.range_add j k
  have e2 := List.range_add (j + k) (n - (j + k))
  rw [show j + k + (n - (j + k)) = n from by omega] at e2
  rw [e2, e1, List.filterMap_append, List.filterMap_append]
  have hmid : ((List.range k).map (fun t => j + t)).filterMap f = List.replicate k x := by
    rw [List.filterMap_map]
    exact filterMap_range_eq_replicate (by intro t ht; exact h t ht)
  rw [hmid]
  exact List.infix_append _ _ _

/-- Extending the range of a filterMap with a guard that kills the new indices. -/
lemma filterMap_range_extend {α : Type} (f : Nat → Option α) {n N : Nat} (hnN : n ≤ N) :
    (List.range n).filterMap f =
      (List.range N).filterMap (fun j => if j < n then f j else none) := by
  have e := List.range_add n (N - n)
  rw [show n + (N - n) = N from by omega] at e
  rw [e, List.filterMap_append]
  have h1 : (List.range n).filterMap (fun j => if j < n then f j else none) =
      (List.range n).filterMap f := by
    apply List.filterMap_congr
    intro t ht
    rw [List.mem_range] at ht
    simp [ht]
  have h2 : ((List.range (N - n)).map (fun t => n + t)).filterMap
      (fun j => if j < n then f j else none) = [] := by
    rw [List.filterMap_map, List.filterMap_eq_nil_iff]
    intro t ht
    have : ¬ n + t < n := by omega
    simp [Function.comp, this]
  rw [h1, h2, List.append_nil]

/-- Decoding a run: a run of the character m in the encoded row comes from a
    run of the mark `some m` in the row, as long as m is not the empty-cell
    sentinel 'E' (prefix form). -/
lemma replicate_prefix_decode {m : Char} (hmE : m ≠ 'E') :
    ∀ {k : Nat} {row : List Cell}, List.replicate k m <+: row.map encodeCell →
      List.replicate k (some m) <+: row := by
  intro k
  induction k with
  | zero =>
    intro row _
    simp
  | succ k ih =>
    intro row h
    cases row with
    | nil =>
      rw [List.map_nil, List.prefix_nil] at h
      have := congrArg List.length h
      simp at this
    | cons c row =>
      rw [List.map_cons, List.replicate_succ, List.cons_prefix_cons] at h
      obtain ⟨h1, h2⟩ := h
      have hc : c = some m := by
        cases c with
        | none => exact absurd h1 hmE
        | some y =>
          simp only [encodeCell] at h1
          rw [h1]
      rw [List.replicate_succ, hc, List.cons_prefix_cons]
      exact ⟨rfl, ih h2⟩

/-- Decoding a run, infix form: a run of m inside the encoded row is exactly a
    run of `some m` inside the row, for m ≠ 'E'. -/
lemma replicate_infix_decode {m : Char} (hmE : m ≠ 'E') {k : Nat} :
    ∀ {row : List Cell}, (List.replicate k m <:+: row.map encodeCell ↔
      List.replicate k (some m) <:+: row) := by
  intro row
  induction row with
  | nil =>
    simp only [List.map_nil]
    constructor
    · intro h
      have := List.IsInfix.length_le h
      simp at this
      subst this
      simp
    · intro h
      have := List.IsInfix.length_le h
      simp at this
      subst this
      simp
  | cons c row ih =>
    rw [List.map_cons, List.infix_cons_iff, List.infix_cons_iff, ih]
    constructor
    · rintro (h | h)
      · exact Or.inl (replicate_prefix_decode hmE (by rw [List.map_cons]; exact h))
      · exact Or.inr h
    · rintro (h | h)
      · refine Or.inl ?_
        have hmap := List.IsPrefix.map encodeCell h
        rw [List.map_replicate] at hmap
        rw [show encodeCell (some m) = m from rfl] at hmap
        rw [List.map_cons] at hmap
        exact hmap
      · exact Or.inr h

/-- A run inside the concatenated gameboard lies inside the encoding of a
    single row (the row break 'B' cannot occur in the run, m ≠ 'B'). -/
lemma replicate_infix_concat {m : Char} {k : Nat} (hk : 1 ≤ k) (hmB : m ≠ 'B') :
    ∀ (L : Gameboard), (List.replicate k m <:+: concatGameboard L ↔
      ∃ row ∈ L, List.replicate k m <:+: row.map encodeCell) := by
  intro L
  induction L with
  | nil =>
    unfold concatGameboard
    simp only [List.map_nil, List.flatten_nil]
    constructor
    · intro h
      have := List.IsInfix.length_le h
      simp at this
      omega
    · rintro ⟨row, hrow, hr⟩
      simp at hrow
  | cons row L ih =>
    have e : concatGameboard (row :: L) =
        row.map encodeCell ++ 'B' :: concatGameboard L := by
      unfold concatGameboard
      rw [List.map_cons, List.flatten_cons, List.append_assoc]
      rfl
    rw [e, replicate_infix_append_sep hk hmB, ih]
    constructor
    · rintro (h | ⟨row2, hrow2, hr2⟩)
      · exact ⟨row, by simp, h⟩
      · exact ⟨row2, by simp [hrow2], hr2⟩
    · rintro ⟨row2, hrow2, hr2⟩
      rcases List.mem_cons.mp hrow2 with rfl | hmem
      · exact Or.inl hr2
      · exact Or.inr ⟨row2, hmem, hr2⟩

/-- hasWinner on a concatenated list of sequences is true exactly when some
    sequence carries a winCase-run of one of the two player marks. -/
lemma hasWinner_concat_iff (g : Game) (L : Gameboard) (hk : 1 ≤ g.winCase)
    (h0E : g.player0.name ≠ 'E') (h0B : g.player0.name ≠ 'B')
    (h1E : g.player1.name ≠ 'E') (h1B : g.player1.name ≠ 'B') :
    hasWinner (concatGameboard L) g = true ↔
      ∃ row ∈ L, (List.replicate g.winCase (some g.player0.name) <:+: row ∨
                  List.replicate g.winCase (some g.player1.name) <:+: row) := by
  unfold hasWinner regexRunTest
  rw [Bool.or_eq_true, decide_eq_true_iff, decide_eq_true_iff]
  rw [replicate_infix_concat hk h0B, replicate_infix_concat hk h1B]
  constructor
  · rintro (⟨row, hrow, hr⟩ | ⟨row, hrow, hr⟩)
    · exact ⟨row, hrow, Or.inl ((replicate_infix_decode h0E).mp hr)⟩
    · exact ⟨row, hrow, Or.inr ((replicate_infix_decode h1E).mp hr)⟩
  · rintro ⟨row, hrow, hr | hr⟩
    · exact Or.inl ⟨row, hrow, (replicate_infix_decode h0E).mpr hr⟩
    · exact Or.inr ⟨row, hrow, (replicate_infix_decode h1E).mpr hr⟩

/-- Positive direction with no side conditions on the mark: a run of a player
    mark inside a member sequence makes hasWinner fire. -/
lemma hasWinner_of_run_mem (g : Game) (L : Gameboard) {row : List Cell} {m : Char}
    (hrow : row ∈ L) (hm : m = g.player0.name ∨ m = g.player1.name)
    (hr : List.replicate g.winCase (some m) <:+: row) :
    hasWinner (concatGameboard L) g = true := by
  have h1 : List.replicate g.winCase m <:+: row.map encodeCell := by
    have hmap := List.IsInfix.map encodeCell hr
    rw [List.map_replicate] at hmap
    rw [show encodeCell (some m) = m from rfl] at hmap
    exact hmap
  have h2 : row.map encodeCell <:+: concatGameboard L := by
    have hmem : row.map encodeCell ++ ['B'] ∈
        L.map (fun r => r.map encodeCell ++ ['B']) :=
      List.mem_map_of_mem _ hrow
    have h3 := List.infix_of_mem_flatten hmem
    exact List.IsInfix.trans (List.IsPrefix.isInfix (List.prefix_append _ _)) h3
  have h4 := List.IsInfix.trans h1 h2
  unfold hasWinner regexRunTest
  rw [Bool.or_eq_true, decide_eq_true_iff, decide_eq_true_iff]
  rcases hm with hm | hm
  · exact Or.inl (hm ▸ h4)
  · exact Or.inr (hm ▸ h4)

/-- A horizontal run appears inside a row of the board itself. -/
lemma rowRun_mem_run {gb : Gameboard} {m : Char} {k r c : Nat} (hsq : isSquareBoard gb)
    (h : RowRun gb m k r c) :
    ∃ row ∈ gb, List.replicate k (some m) <:+: row := by
  obtain ⟨hr, hc, hrun⟩ := h
  have hmem : gb.getD r [] ∈ gb := by
    rw [List.getD_eq_getElem _ _ hr]
    exact List.getElem_mem hr
  refine ⟨gb.getD r [], hmem, ?_⟩
  apply replicate_infix_of_getD_run (j := c)
  · rw [hsq _ hmem]
    exact hc
  · intro t ht
    exact hrun t ht

/-- A vertical run appears inside a sequence of the transposed board. -/
lemma colRun_mem_run {gb : Gameboard} {m : Char} {k r c : Nat} (hsq : isSquareBoard gb)
    (hgb : gb ≠ []) (h : ColRun gb m k r c) :
    ∃ row ∈ transposeGameboard gb, List.replicate k (some m) <:+: row := by
  obtain ⟨hc, hr, hrun⟩ := h
  have hhead : (gb.headD []).length = gb.length := by
    cases gb with
    | nil => exact absurd rfl hgb
    | cons r0 tl => exact hsq r0 (by simp)
  refine ⟨gb.map (fun row => row.getD c none), ?_, ?_⟩
  · unfold transposeGameboard
    exact List.mem_map.mpr ⟨c, List.mem_range.mpr (by rw [hhead]; exact hc), rfl⟩
  · apply replicate_infix_of_getD_run (j := r)
    · rw [List.length_map]
      exact hr
    · intro t ht
      have hrt : r + t < gb.length := by
        have := List.mem_range.mp ht
        omega
      rw [List.getD_eq_getElem _ _ (by rw [List.length_map]; exact hrt)]
      rw [List.getElem_map]
      have hcell := hrun t ht
      unfold cellAt at hcell
      rw [List.getD_eq_getElem _ _ hrt] at hcell
      exact hcell

/-- A top-right-to-bottom-left run appears inside a sequence of
    diagonalizeGameboard (whose sequence i collects the cells with
    constant row+col sum i). -/
lemma antiDiagRun_mem_run {gb : Gameboard} {m : Char} {k r c : Nat} (hk : 1 ≤ k)
    (h : AntiDiagRun gb m k r c) :
    ∃ row ∈ diagonalizeGameboard gb, List.replicate k (some m) <:+: row := by
  obtain ⟨hr, hc, hkc, hrun⟩ := h
  refine ⟨diagRowSrc gb (r + c), ?_, ?_⟩
  · unfold diagonalizeGameboard
    exact List.mem_map.mpr ⟨r + c, List.mem_range.mpr (by omega), rfl⟩
  · unfold diagRowSrc
    apply replicate_infix_filterMap_range (j := r)
    · omega
    · intro t ht
      have htk := List.mem_range.mp ht
      have hcond : r + t < gb.length ∧ r + c - (r + t) < gb.length := ⟨by omega, by omega⟩
      rw [if_pos hcond]
      rw [show r + c - (r + t) = c - t from by omega]
      exact congrArg some (hrun t ht)

/-- A top-left-to-bottom-right run appears inside a sequence of
    antiDiagonalizeGameboard (whose sequence i collects the cells with
    constant col-row difference size-1-i). -/
lemma diagRun_mem_run {gb : Gameboard} {m : Char} {k r c : Nat} (hk : 1 ≤ k)
    (h : DiagRun gb m k r c) :
    ∃ row ∈ antiDiagonalizeGameboard gb, List.replicate k (some m) <:+: row := by
  obtain ⟨hr, hc, hrun⟩ := h
  have hcn : c < gb.length := by omega
  set i := gb.length - 1 - c + r with hi
  refine ⟨antiDiagRowSrc gb i, ?_, ?_⟩
  · unfold antiDiagonalizeGameboard
    exact List.mem_map.mpr ⟨i, List.mem_range.mpr (by omega), rfl⟩
  · unfold antiDiagRowSrc
    apply replicate_infix_filterMap_range (j := r)
    · omega
    · intro t ht
      have htk := List.mem_range.mp ht
      have hcond : r + t < gb.length ∧
          (0 : Int) ≤ (gb.length : Int) - 1 - (i : Int) + ((r + t : Nat) : Int) := by
        constructor
        · omega
        · omega
      rw [if_pos hcond]
      rw [show ((gb.length : Int) - 1 - (i : Int) + ((r + t : Nat) : Int)).toNat = c + t
          from by omega]
      exact congrArg some (hrun t ht)

/-- checkForWin either announces the mover (index 1 - turn) as winner and bumps
    exactly that player's counter, or — when no linearization matches — leaves
    the state alone and reports a tie exactly when no empty cell remains. -/
lemma checkForWin_cases (g : Game) :
    (winDetected g = true ∧
      checkForWin g = (winMessage (getPlayer g (lastMoveIndex g)).name, addWin g (lastMoveIndex g))) ∨
    (winDetected g = false ∧
      checkForWin g = (if g.remainingEmptyCells == 0 then ("The game is tied!", g) else ("", g))) := by
  unfold checkForWin winDetected
  cases h1 : hasWinner (concatGameboard g.gameboard) g with
  | true => exact Or.inl ⟨by simp [h1], by simp [h1]⟩
  | false =>
    cases h2 : hasWinner (concatGameboard (transposeGameboard g.gameboard)) g with
    | true => exact Or.inl ⟨by simp [h1, h2], by simp [h1, h2]⟩
    | false =>
      cases h3 : hasWinner (concatGameboard (diagonalizeGameboard g.gameboard)) g with
      | true => exact Or.inl ⟨by simp [h1, h2, h3], by simp [h1, h2, h3]⟩
      | false =>
        cases h4 : hasWinner (concatGameboard (antiDiagonalizeGameboard g.gameboard)) g with
        | true => exact Or.inl ⟨by simp [h1, h2, h3, h4], by simp [h1, h2, h3, h4]⟩
        | false =>
          refine Or.inr ⟨by simp [h1, h2, h3, h4], ?_⟩
          by_cases h5 : g.remainingEmptyCells == 0
          · simp [h1, h2, h3, h4, h5]
          · simp [h1, h2, h3, h4, h5]

/-- The winner announcement has 14 characters. -/
lemma winMessage_length (c : Char) : (winMessage c).length = 14 := by
  unfold winMessage
  rw [String.length_append, String.length_append]
  rfl

/-- The winner announcement is never the empty message. -/
lemma winMessage_ne_empty (c : Char) : winMessage c ≠ "" := by
  intro h
  have := congrArg String.length h
  rw [winMessage_length] at this
  simp at this

/-- The winner announcement is never the tie message. -/
lemma winMessage_ne_tied (c : Char) : winMessage c ≠ "The game is tied!" := by
  intro h
  have := congrArg String.length h
  rw [winMessage_length] at this
  have h17 : ("The game is tied!" : String).length = 17 := rfl
  omega

/-- Whenever winDetected holds, checkForWin reports the mover's win message. -/
lemma checkForWin_fst_of_detected {g : Game} (h : winDetected g = true) :
    (checkForWin g).1 = winMessage (getPlayer g (lastMoveIndex g)).name := by
  rcases checkForWin_cases g with ⟨_, he⟩ | ⟨hf, _⟩
  · rw [he]
  · rw [hf] at h
    cases h

/-- Conversely, the mover's win message is reported only when winDetected holds. -/
lemma winDetected_of_checkForWin_fst {g : Game} {c : Char}
    (h : (checkForWin g).1 = winMessage c) : winDetected g = true := by
  rcases checkForWin_cases g with ⟨ht, _⟩ | ⟨_, he⟩
  · exact ht
  · exfalso
    rw [he] at h
    by_cases h5 : g.remainingEmptyCells == 0
    · rw [if_pos h5] at h
      exact winMessage_ne_tied c h.symm
    · rw [if_neg h5] at h
      exact winMessage_ne_empty c h.symm

/-- countEmptyCells splits over the first row. -/
lemma countEmptyCells_cons (row : List Cell) (tl : Gameboard) :
    countEmptyCells (row :: tl) =
      row.countP (fun cl => cl == none) + countEmptyCells tl := by
  unfold countEmptyCells
  rw [List.map_cons, List.sum_cons]

/-- Setting an empty cell to a mark removes exactly one empty cell of the row. -/
lemma countP_set_mark {row : List Cell} {c : Nat} {x : Char}
    (hc : c < row.length) (hcell : row.getD c none = none) :
    (row.set c (some x)).countP (fun cl => cl == none) + 1 =
      row.countP (fun cl => cl == none) := by
  induction row generalizing c with
  | nil => simp at hc
  | cons h0 tl ih =>
    cases c with
    | zero =>
      rw [List.getD_cons_zero] at hcell
      subst hcell
      rw [List.set_cons_zero, List.countP_cons, List.countP_cons]
      simp
    | succ c =>
      rw [List.getD_cons_succ] at hcell
      rw [List.set_cons_succ, List.countP_cons, List.countP_cons]
      have hc' : c < tl.length := by
        simp at hc
        omega
      have := ih hc' hcell
      omega

/-- Setting an empty cell to a mark removes exactly one empty cell of the board. -/
lemma countEmptyCells_set {gb : Gameboard} {r c : Nat} {x : Char}
    (hr : r < gb.length) (hc : c < (gb.getD r []).length)
    (hcell : cellAt gb r c = none) :
    countEmptyCells (gb.set r ((gb.getD r []).set c (some x))) + 1 = countEmptyCells gb := by
  induction gb generalizing r with
  | nil => simp at hr
  | cons row tl ih =>
    cases r with
    | zero =>
      rw [List.getD_cons_zero] at hc
      unfold cellAt at hcell
      rw [List.getD_cons_zero] at hcell
      rw [show ((row :: tl).getD 0 []) = row from List.getD_cons_zero]
      rw [List.set_cons_zero]
      rw [countEmptyCells_cons, countEmptyCells_cons]
      have := countP_set_mark (x := x) hc hcell
      omega
    | succ r =>
      rw [List.getD_cons_succ] at hc
      unfold cellAt at hcell
      rw [List.getD_cons_succ] at hcell
      rw [show ((row :: tl).getD (r + 1) []) = tl.getD r [] from List.getD_cons_succ]
      rw [List.set_cons_succ]
      rw [countEmptyCells_cons, countEmptyCells_cons]
      have hr' : r < tl.length := by
        simp at hr
        omega
      have := ih hr' hc hcell
      omega

/-- The diagonal transform produces 2N-1 sequences. -/
lemma diagonalizeGameboard_length (gb : Gameboard) :
    (diagonalizeGameboard gb).length = 2 * gb.length - 1 := by
  unfold diagonalizeGameboard
  simp

/-- The anti-diagonal transform produces 2N-1 sequences. -/
lemma antiDiagonalizeGameboard_length (gb : Gameboard) :
    (antiDiagonalizeGameboard gb).length = 2 * gb.length - 1 := by
  unfold antiDiagonalizeGameboard
  simp

/-- The d-th sequence of the diagonal transform. -/
lemma diagonalizeGameboard_getD (gb : Gameboard) {d : Nat} (hd : d < 2 * gb.length - 1) :
    (diagonalizeGameboard gb).getD d [] = diagRowSrc gb d := by
  unfold diagonalizeGameboard
  rw [List.getD_eq_getElem _ _ (by simpa using hd)]
  rw [List.getElem_map]
  rw [List.getElem_range]
  rfl

/-- The d-th sequence of the anti-diagonal transform. -/
lemma antiDiagonalizeGameboard_getD (gb : Gameboard) {d : Nat} (hd : d < 2 * gb.length - 1) :
    (antiDiagonalizeGameboard gb).getD d [] = antiDiagRowSrc gb d := by
  unfold antiDiagonalizeGameboard
  rw [List.getD_eq_getElem _ _ (by simpa using hd)]
  rw [List.getElem_map]
  rw [List.getElem_range]
  rfl

/-- Nested guards collapse to a conjunction. -/
lemma ite_ite_and {α : Type} (P Q : Prop) [Decidable P] [Decidable Q] (x d : α) :
    (if P then (if Q then x else d) else d) = if P ∧ Q then x else d := by
  split_ifs <;> first | rfl | tauto

/-- The source's diagonal sequence agrees with the spec formula. -/
lemma diagRowSrc_eq_spec {gb : Gameboard} {n d : Nat} (hn : gb.length = n) :
    diagRowSrc gb d = diagRowSpec gb n d := by
  unfold diagRowSrc diagRowSpec
  subst hn
  have e1 := filterMap_range_extend
    (fun j => if j < gb.length ∧ d - j < gb.length then some (cellAt gb j (d - j)) else none)
    (le_max_left (d + 1) gb.length)
  have e2 := filterMap_range_extend
    (fun r => if d + 1 - gb.length ≤ r ∧ r ≤ d ∧ r ≤ gb.length - 1 then
      some (cellAt gb r (d - r)) else none)
    (le_max_right (d + 1) gb.length)
  rw [e1, e2]
  apply List.filterMap_congr
  intro j hj
  rw [ite_ite_and, ite_ite_and]
  exact if_congr (by omega) rfl rfl

/-- The source's anti-diagonal sequence agrees with the spec formula. -/
lemma antiDiagRowSrc_eq_spec {gb : Gameboard} {n d : Nat} (hn : gb.length = n) :
    antiDiagRowSrc gb d = antiDiagRowSpec gb n d := by
  unfold antiDiagRowSrc antiDiagRowSpec
  subst hn
  have e1 := filterMap_range_extend
    (fun j => if j < gb.length ∧ 0 ≤ (gb.length : Int) - 1 - d + j then
      some (cellAt gb j ((gb.length : Int) - 1 - d + j).toNat) else none)
    (le_max_left (d + 1) gb.length)
  have e2 := filterMap_range_extend
    (fun r => if 0 ≤ (gb.length : Int) - 1 - (d : Int) + (r : Int) ∧
        (gb.length : Int) - 1 - (d : Int) + (r : Int) < (gb.length : Int) then
      some (cellAt gb r ((gb.length : Int) - 1 - (d : Int) + (r : Int)).toNat) else none)
    (le_max_right (d + 1) gb.length)
  rw [e1, e2]
  apply List.filterMap_congr
  intro j hj
  rw [ite_ite_and, ite_ite_and]
  exact if_congr (by omega) rfl rfl

/-- hasWinner is false on any collection of sequences none of which carries a
    winning run of either player mark. -/
lemma hasWinner_eq_false_of_no_run (g : Game) (L : Gameboard) (hk : 1 ≤ g.winCase)
    (h0E : g.player0.name ≠ 'E') (h0B : g.player0.name ≠ 'B')
    (h1E : g.player1.name ≠ 'E') (h1B : g.player1.name ≠ 'B')
    (hnone : ∀ row ∈ L,
      ¬ List.replicate g.winCase (some g.player0.name) <:+: row ∧
      ¬ List.replicate g.winCase (some g.player1.name) <:+: row) :
    hasWinner (concatGameboard L) g = false := by
  cases hw : hasWinner (concatGameboard L) g with
  | false => rfl
  | true =>
    exfalso
    obtain ⟨row, hrow, hr⟩ := (hasWinner_concat_iff g L hk h0E h0B h1E h1B).mp hw
    rcases hr with hr | hr
    · exact (hnone row hrow).1 hr
    · exact (hnone row hrow).2 hr

/-- No winning run in any of the four linearizations means no detection. -/
lemma winDetected_eq_false_of_no_run (g : Game) (hk : 1 ≤ g.winCase)
    (h0E : g.player0.name ≠ 'E') (h0B : g.player0.name ≠ 'B')
    (h1E : g.player1.name ≠ 'E') (h1B : g.player1.name ≠ 'B')
    (hnone : ∀ row ∈ allSequences g.gameboard,
      ¬ List.replicate g.winCase (some g.player0.name) <:+: row ∧
      ¬ List.replicate g.winCase (some g.player1.name) <:+: row) :
    winDetected g = false := by
  have key : ∀ L : Gameboard, (∀ row ∈ L, row ∈ allSequences g.gameboard) →
      hasWinner (concatGameboard L) g = false := by
    intro L hsub
    exact hasWinner_eq_false_of_no_run g L hk h0E h0B h1E h1B
      (fun row hrow => hnone row (hsub row hrow))
  unfold winDetected
  rw [key g.gameboard (fun row h => by unfold allSequences; simp [h]),
      key (transposeGameboard g.gameboard) (fun row h => by unfold allSequences; simp [h]),
      key (diagonalizeGameboard g.gameboard) (fun row h => by unfold allSequences; simp [h]),
      key (antiDiagonalizeGameboard g.gameboard) (fun row h => by unfold allSequences; simp [h])]
  rfl

/-- winDetected holds exactly when some sequence of the four linearizations
    carries a winning run of one of the player marks. -/
lemma winDetected_iff_run (g : Game) (hk : 1 ≤ g.winCase)
    (h0E : g.player0.name ≠ 'E') (h0B : g.player0.name ≠ 'B')
    (h1E : g.player1.name ≠ 'E') (h1B : g.player1.name ≠ 'B') :
    winDetected g = true ↔
      ∃ row ∈ allSequences g.gameboard,
        (List.replicate g.winCase (some g.player0.name) <:+: row ∨
         List.replicate g.winCase (some g.player1.name) <:+: row) := by
  unfold winDetected
  rw [Bool.or_eq_true, Bool.or_eq_true, Bool.or_eq_true]
  rw [hasWinner_concat_iff g _ hk h0E h0B h1E h1B,
      hasWinner_concat_iff g _ hk h0E h0B h1E h1B,
      hasWinner_concat_iff g _ hk h0E h0B h1E h1B,
      hasWinner_concat_iff g _ hk h0E h0B h1E h1B]
  unfold allSequences
  constructor
  · rintro (((⟨row, hrow, hr⟩ | ⟨row, hrow, hr⟩) | ⟨row, hrow, hr⟩) | ⟨row, hrow, hr⟩)
    · exact ⟨row, by simp [hrow], hr⟩
    · exact ⟨row, by simp [hrow], hr⟩
    · exact ⟨row, by simp [hrow], hr⟩
    · exact ⟨row, by simp [hrow], hr⟩
  · rintro ⟨row, hrow, hr⟩
    rw [List.mem_append] at hrow
    rcases hrow with hrow | hrow
    · rw [List.mem_append] at hrow
      rcases hrow with hrow | hrow
      · rw [List.mem_append] at hrow
        rcases hrow with hrow | hrow
        · exact Or.inl (Or.inl (Or.inl ⟨row, hrow, hr⟩))
        · exact Or.inl (Or.inl (Or.inr ⟨row, hrow, hr⟩))
      · exact Or.inl (Or.inr ⟨row, hrow, hr⟩)
    · exact Or.inr ⟨row, hrow, hr⟩

/-- The mover index is 0 or 1. -/
lemma lastMoveIndex_cases (g : Game) : lastMoveIndex g = 0 ∨ lastMoveIndex g = 1 := by
  unfold lastMoveIndex
  by_cases h : g.turn == 0
  · rw [if_pos h]
    exact Or.inr rfl
  · rw [if_neg h]
    exact Or.inl rfl

/-- addWin bumps exactly the addressed player's counter. -/
lemma getPlayer_addWin_self (g : Game) {i : Nat} (hi : i = 0 ∨ i = 1) :
    (getPlayer (addWin g i) i).totalWins = (getPlayer g i).totalWins + 1 := by
  rcases hi with rfl | rfl
  · simp [addWin, getPlayer]
  · simp [addWin, getPlayer]

/-- addWin leaves the other player's counter unchanged. -/
lemma getPlayer_addWin_other (g : Game) {i : Nat} (hi : i = 0 ∨ i = 1) :
    (getPlayer (addWin g i) (1 - i)).totalWins = (getPlayer g (1 - i)).totalWins := by
  rcases hi with rfl | rfl
  · simp [addWin, getPlayer]
  · simp [addWin, getPlayer]

/-- C2: hasWinner over a linearized collection of sequences returns true iff
    some sequence contains winCase or more consecutive cells equal to a
    player's mark (empty cells never match and break a run, since they encode
    to 'E'); any collection of sequences each shorter than winCase never
    matches; a sequence that is exactly winCase consecutive marks matches. -/
theorem C2_hasWinner_run_iff (g : Game) (L : Gameboard) (hk : 1 ≤ g.winCase)
    (h0E : g.player0.name ≠ 'E') (h0B : g.player0.name ≠ 'B')
    (h1E : g.player1.name ≠ 'E') (h1B : g.player1.name ≠ 'B') :
    (hasWinner (concatGameboard L) g = true ↔
      ∃ row ∈ L, (List.replicate g.winCase (some g.player0.name) <:+: row ∨
                  List.replicate g.winCase (some g.player1.name) <:+: row)) ∧
    ((∀ row ∈ L, row.length < g.winCase) → hasWinner (concatGameboard L) g = false) ∧
    (∀ row ∈ L, row = List.replicate g.winCase (some g.player0.name) →
      hasWinner (concatGameboard L) g = true) := by
  have hiff := hasWinner_concat_iff g L hk h0E h0B h1E h1B
  refine ⟨hiff, ?_, ?_⟩
  · intro hshort
    cases hw : hasWinner (concatGameboard L) g with
    | false => rfl
    | true =>
      exfalso
      obtain ⟨row, hrow, hr⟩ := hiff.mp hw
      have hlen := hshort row hrow
      rcases hr with hr | hr
      · have := List.IsInfix.length_le hr
        rw [List.length_replicate] at this
        omega
      · have := List.IsInfix.length_le hr
        rw [List.length_replicate] at this
        omega
  · intro row hrow hrep
    refine hiff.mpr ⟨row, hrow, Or.inl ?_⟩
    rw [hrep]

/-- C2 witness: a collection with one exact X-run and one empty sequence. -/
theorem C2_hasWinner_run_iff_witness :
    hasWinner (concatGameboard [[some 'X', some 'X', some 'X'], [none, none, none]]) gDemoEnv
      = true :=
  (C2_hasWinner_run_iff gDemoEnv [[some 'X', some 'X', some 'X'], [none, none, none]]
    (by decide) (by decide) (by decide) (by decide) (by decide)).1.mpr
    ⟨[some 'X', some 'X', some 'X'], by decide, Or.inl (by decide)⟩

/-- C10: for boards whose non-empty marks are the single characters 'X' and
    'O' (the game's player names), the pattern search hasWinner performs on
    the concatGameboard encoding (empty cells as 'E', each row followed by
    'B') is true iff some single row of the input grid contains winCase or
    more consecutive equal non-empty marks: a run never spans the boundary
    between two rows and empty cells never extend a run. -/
theorem C10_hasWinner_refines_row_runs (g : Game) (gb : Gameboard)
    (h0 : g.player0.name = 'X') (h1 : g.player1.name = 'O') (hk : 1 ≤ g.winCase)
    (hcells : ∀ row ∈ gb, ∀ c ∈ row, c = none ∨ c = some 'X' ∨ c = some 'O') :
    hasWinner (concatGameboard gb) g = true ↔
      ∃ row ∈ gb, ∃ mk, (mk = 'X' ∨ mk = 'O') ∧
        List.replicate g.winCase (some mk) <:+: row := by
  have hiff := hasWinner_concat_iff g gb hk
    (by rw [h0]; decide) (by rw [h0]; decide) (by rw [h1]; decide) (by rw [h1]; decide)
  rw [h0, h1] at hiff
  rw [hiff]
  constructor
  · rintro ⟨row, hrow, hr | hr⟩
    · exact ⟨row, hrow, 'X', Or.inl rfl, hr⟩
    · exact ⟨row, hrow, 'O', Or.inr rfl, hr⟩
  · rintro ⟨row, hrow, mk, hmk | hmk, hr⟩
    · subst hmk
      exact ⟨row, hrow, Or.inl hr⟩
    · subst hmk
      exact ⟨row, hrow, Or.inr hr⟩

/-- C10 witness: a one-row grid carrying an O-run. -/
theorem C10_hasWinner_refines_row_runs_witness :
    hasWinner (concatGameboard [[some 'O', some 'O', some 'O']]) gDemoEnv = true :=
  (C10_hasWinner_refines_row_runs gDemoEnv [[some 'O', some 'O', some 'O']]
    (by decide) (by decide) (by decide) (by decide)).mpr
    ⟨[some 'O', some 'O', some 'O'], by decide, 'O', Or.inr rfl, by decide⟩

/-- C1 (amended): for a square board with 1 ≤ winCase ≤ N, a contiguous
    winCase-run of the mover's mark m (the pre-flip player's mark) along any
    row, column, diagonal or anti-diagonal makes checkForWin return the
    player-wins outcome for that mark; and when no sequence of the four
    linearizations carries a winning run of either player mark, no win is
    produced (the outcome is empty or the tie message). -/
theorem C1_win_detection (g : Game) (m : Char)
    (hsq : isSquareBoard g.gameboard)
    (hk1 : 1 ≤ g.winCase) (hkn : g.winCase ≤ g.gameboard.length)
    (hm : m = (getPlayer g (lastMoveIndex g)).name)
    (h0E : g.player0.name ≠ 'E') (h0B : g.player0.name ≠ 'B')
    (h1E : g.player1.name ≠ 'E') (h1B : g.player1.name ≠ 'B') :
    (SomeRun g.gameboard m g.winCase → (checkForWin g).1 = winMessage m) ∧
    ((∀ row ∈ allSequences g.gameboard,
        ¬ List.replicate g.winCase (some g.player0.name) <:+: row ∧
        ¬ List.replicate g.winCase (some g.player1.name) <:+: row) →
      (checkForWin g).1 = "" ∨ (checkForWin g).1 = "The game is tied!") := by
  constructor
  · rintro ⟨r, c, hrun⟩
    have hmnames : m = g.player0.name ∨ m = g.player1.name := by
      rw [hm]
      unfold getPlayer
      by_cases h : lastMoveIndex g == 0
      · rw [if_pos h]
        exact Or.inl rfl
      · rw [if_neg h]
        exact Or.inr rfl
    have hdet : winDetected g = true := by
      unfold winDetected
      rcases hrun with h | h | h | h
      · obtain ⟨row, hrow, hr⟩ := rowRun_mem_run hsq h
        rw [hasWinner_of_run_mem g g.gameboard hrow hmnames hr]
        simp
      · have hne : g.gameboard ≠ [] := by
          intro he
          rw [he] at hkn
          simp at hkn
          omega
        obtain ⟨row, hrow, hr⟩ := colRun_mem_run hsq hne h
        rw [hasWinner_of_run_mem g _ hrow hmnames hr]
        simp
      · obtain ⟨row, hrow, hr⟩ := diagRun_mem_run hk1 h
        rw [hasWinner_of_run_mem g _ hrow hmnames hr]
        simp
      · obtain ⟨row, hrow, hr⟩ := antiDiagRun_mem_run hk1 h
        rw [hasWinner_of_run_mem g _ hrow hmnames hr]
        simp
    rw [checkForWin_fst_of_detected hdet, hm]
  · intro hnone
    have hdet := winDetected_eq_false_of_no_run g hk1 h0E h0B h1E h1B hnone
    rcases checkForWin_cases g with ⟨ht, _⟩ | ⟨_, he⟩
    · rw [hdet] at ht
      cases ht
    · rw [he]
      by_cases h5 : g.remainingEmptyCells == 0
      · rw [if_pos h5]
        exact Or.inr rfl
      · rw [if_neg h5]
        exact Or.inl rfl

/-- C1 witness: X's completed top row on a 3×3 board is reported as X's win. -/
theorem C1_win_detection_witness : (checkForWin gDemoXRow).1 = winMessage 'X' :=
  (C1_win_detection gDemoXRow 'X' (by decide) (by decide) (by decide) (by decide)
    (by decide) (by decide) (by decide) (by decide)).1
    ⟨0, 0, Or.inl (by decide)⟩

/-- C1 counterexample to the claim as stated: the board of gDemoORow contains
    a contiguous 3-run of the mark 'O' in its top row, yet checkForWin does
    not return the player-wins outcome for that mark — the win is attributed
    to the pre-flip mover X instead. -/
theorem C1_counterexample :
    RowRun gDemoORow.gameboard 'O' gDemoORow.winCase 0 0 ∧
    (checkForWin gDemoORow).1 ≠ winMessage 'O' ∧
    (checkForWin gDemoORow).1 = winMessage 'X' := by
  refine ⟨by decide, ?_, ?_⟩
  · decide
  · decide

/-- C3 (amended): checkForWin attributes every player-wins outcome to the
    pre-flip player (index 1 minus the current turn index), and it runs the
    win detector for both players' marks: the mover's win message is returned
    exactly when some sequence of the four linearizations carries a winning
    run of either mark — also when the run belongs solely to the other
    player's mark. -/
theorem C3_win_attribution (g : Game) (hk : 1 ≤ g.winCase)
    (h0E : g.player0.name ≠ 'E') (h0B : g.player0.name ≠ 'B')
    (h1E : g.player1.name ≠ 'E') (h1B : g.player1.name ≠ 'B') :
    ((checkForWin g).1 = winMessage (getPlayer g (lastMoveIndex g)).name ↔
      ∃ row ∈ allSequences g.gameboard,
        (List.replicate g.winCase (some g.player0.name) <:+: row ∨
         List.replicate g.winCase (some g.player1.name) <:+: row)) ∧
    (∀ c : Char, (checkForWin g).1 = winMessage c →
      (checkForWin g).1 = winMessage (getPlayer g (lastMoveIndex g)).name) := by
  constructor
  · constructor
    · intro h
      exact (winDetected_iff_run g hk h0E h0B h1E h1B).mp
        (winDetected_of_checkForWin_fst h)
    · intro h
      exact checkForWin_fst_of_detected
        ((winDetected_iff_run g hk h0E h0B h1E h1B).mpr h)
  · intro c h
    exact checkForWin_fst_of_detected (winDetected_of_checkForWin_fst h)

/-- C3 witness: X's completed first column is reported as the mover X's win. -/
theorem C3_win_attribution_witness :
    (checkForWin gDemoXCol).1 = winMessage (getPlayer gDemoXCol (lastMoveIndex gDemoXCol)).name :=
  (C3_win_attribution gDemoXCol (by decide) (by decide) (by decide) (by decide)
    (by decide)).1.mpr
    ⟨[some 'X', some 'X', some 'X'], by decide, Or.inl (by decide)⟩

/-- C3 counterexample to the claim as stated: in gDemoOCol only O's mark has a
    winning run (X has none in any linearization), yet checkForWin returns a
    player-wins outcome — attributed to the mover X. -/
theorem C3_counterexample :
    (checkForWin gDemoOCol).1 = winMessage 'X' ∧
    (∀ row ∈ allSequences gDemoOCol.gameboard,
      ¬ List.replicate gDemoOCol.winCase (some 'X') <:+: row) := by
  refine ⟨?_, ?_⟩
  · decide
  · decide

/-- C4: the four linearizations are tried in the fixed order rows, columns,
    diagonals, anti-diagonals; a match in the rows linearization fully
    determines the outcome (detection stops there), and whenever any
    linearization matches, the mover's totalWins is incremented by exactly 1
    and the other player's counter is unchanged; with no match the players
    are untouched. -/
theorem C4_single_increment (g : Game) :
    (hasWinner (concatGameboard g.gameboard) g = true →
      checkForWin g =
        (winMessage (getPlayer g (lastMoveIndex g)).name, addWin g (lastMoveIndex g))) ∧
    (winDetected g = true →
      (getPlayer (checkForWin g).2 (lastMoveIndex g)).totalWins =
        (getPlayer g (lastMoveIndex g)).totalWins + 1 ∧
      (getPlayer (checkForWin g).2 (1 - lastMoveIndex g)).totalWins =
        (getPlayer g (1 - lastMoveIndex g)).totalWins) ∧
    (winDetected g = false → (checkForWin g).2 = g) := by
  refine ⟨?_, ?_, ?_⟩
  · intro h
    unfold checkForWin
    simp [h]
  · intro h
    rcases checkForWin_cases g with ⟨_, he⟩ | ⟨hf, _⟩
    · rw [he]
      exact ⟨getPlayer_addWin_self g (lastMoveIndex_cases g),
             getPlayer_addWin_other g (lastMoveIndex_cases g)⟩
    · rw [hf] at h
      cases h
  · intro h
    rcases checkForWin_cases g with ⟨ht, _⟩ | ⟨_, he⟩
    · rw [h] at ht
      cases ht
    · rw [he]
      by_cases h5 : g.remainingEmptyCells == 0
      · rw [if_pos h5]
      · rw [if_neg h5]

/-- C4 witness: on gDemoBump (X has 2 wins, O has 1) X's row win bumps X to 3
    and leaves O at 1, and the outcome is decided by the rows linearization. -/
theorem C4_single_increment_witness :
    checkForWin gDemoBump = (winMessage 'X', addWin gDemoBump 0) ∧
    (getPlayer (checkForWin gDemoBump).2 0).totalWins = 3 ∧
    (getPlayer (checkForWin gDemoBump).2 1).totalWins = 1 := by
  have h1 := (C4_single_increment gDemoBump).1 (by decide)
  have h2 := (C4_single_increment gDemoBump).2.1 (by decide)
  have he : lastMoveIndex gDemoBump = 0 := by decide
  rw [he] at h2
  refine ⟨?_, ?_, ?_⟩
  · rw [h1]
    decide
  · rw [h2.1]
    decide
  · have := h2.2
    norm_num at this
    rw [this]
    decide

/-- C7: on a state none of whose four linearizations carries a winning run of
    either player mark, checkForWin returns the tie outcome when 0 empty
    cells remain and the empty (no-result-yet) outcome when at least one cell
    remains empty; the game state is untouched either way. -/
theorem C7_draw_detection (g : Game) (hk : 1 ≤ g.winCase)
    (h0E : g.player0.name ≠ 'E') (h0B : g.player0.name ≠ 'B')
    (h1E : g.player1.name ≠ 'E') (h1B : g.player1.name ≠ 'B')
    (hnone : ∀ row ∈ allSequences g.gameboard,
      ¬ List.replicate g.winCase (some g.player0.name) <:+: row ∧
      ¬ List.replicate g.winCase (some g.player1.name) <:+: row) :
    (g.remainingEmptyCells = 0 → checkForWin g = ("The game is tied!", g)) ∧
    (1 ≤ g.remainingEmptyCells → checkForWin g = ("", g)) := by
  have hdet := winDetected_eq_false_of_no_run g hk h0E h0B h1E h1B hnone
  rcases checkForWin_cases g with ⟨ht, _⟩ | ⟨_, he⟩
  · rw [hdet] at ht
    cases ht
  · constructor
    · intro h0
      rw [he, if_pos (by simp [h0])]
    · intro h1
      rw [he, if_neg (by simp; omega)]

/-- C7 witness: the filled 3×3 board of gDemoDraw, with no winning run
    anywhere, is a tie. -/
theorem C7_draw_detection_witness : checkForWin gDemoDraw = ("The game is tied!", gDemoDraw) :=
  (C7_draw_detection gDemoDraw (by decide) (by decide) (by decide) (by decide)
    (by decide) (by decide)).1 (by decide)

/-- validateInputOutOfBound returns one of exactly two strings. -/
lemma validateInputOutOfBound_cases (input : Input) (gb : Gameboard) :
    validateInputOutOfBound input gb = "Input out of bound" ∨
    validateInputOutOfBound input gb = "" := by
  unfold validateInputOutOfBound
  dsimp only
  split_ifs
  · exact Or.inl rfl
  · exact Or.inr rfl

/-- C5: move validation classifies rejections into the three error kinds:
    the raw string "abc" is rejected as malformed; the coordinate pairs
    (-1,0) and (N,0) are rejected by the bounds check for an N-sized board;
    a parsed in-bounds move onto an occupied cell is rejected as taken; and
    the three checks run sequentially, short-circuiting at the first
    failure. -/
theorem C5_validation_errors (gb : Gameboard) :
    (validateInput ("abc".toList) gb =
      (none, "Invalid input. A valid input should look like this x,y.")) ∧
    (validateInputOutOfBound { row := -1, col := 0 } gb = "Input out of bound") ∧
    (validateInputOutOfBound { row := (gb.length : Int), col := 0 } gb = "Input out of bound") ∧
    (∀ raw, (convertRawInputToInput raw).1 = none →
      validateInput raw gb = (none, (convertRawInputToInput raw).2)) ∧
    (∀ raw input, convertRawInputToInput raw = (some input, "") →
      validateInputOutOfBound input gb ≠ "" →
      validateInput raw gb = (some input, "Input out of bound")) ∧
    (∀ raw input, convertRawInputToInput raw = (some input, "") →
      validateInputOutOfBound input gb = "" →
      cellAt gb input.row.toNat input.col.toNat ≠ none →
      validateInput raw gb = (some input, "This cell has already been placed")) := by
  refine ⟨?_, ?_, ?_, ?_, ?_, ?_⟩
  · have hc : convertRawInputToInput ("abc".toList) =
        (none, "Invalid input. A valid input should look like this x,y.") := by decide
    unfold validateInput
    rw [hc]
  · unfold validateInputOutOfBound
    simp
  · unfold validateInputOutOfBound
    rw [if_pos]
    simp
  · intro raw hraw
    unfold validateInput
    rcases hconv : convertRawInputToInput raw with ⟨oi, err⟩
    rw [hconv] at hraw
    simp at hraw
    subst hraw
    rfl
  · intro raw input hconv hne
    have hoob : validateInputOutOfBound input gb = "Input out of bound" := by
      rcases validateInputOutOfBound_cases input gb with h | h
      · exact h
      · exact absurd h hne
    unfold validateInput
    rw [hconv]
    simp [hoob]
    intro h
    exact absurd h (by decide)
  · intro raw input hconv hoob hcell
    have hemp : validateEmptyCell input gb = "This cell has already been placed" := by
      unfold validateEmptyCell
      rw [if_neg]
      simp [hcell]
    unfold validateInput
    rw [hconv]
    simp [hoob, hemp]

/-- C5 witness: on a 1×1 board whose only cell holds X, "abc" is malformed,
    (-1,0) and (1,0) are out of bounds, and "0,0" hits the taken cell. -/
theorem C5_validation_errors_witness :
    validateInput ("0,0".toList) [[some 'X']] =
      (some { row := 0, col := 0 }, "This cell has already been placed") ∧
    validateInputOutOfBound { row := -1, col := 0 } [[some 'X']] = "Input out of bound" := by
  refine ⟨?_, (C5_validation_errors [[some 'X']]).2.1⟩
  exact (C5_validation_errors [[some 'X']]).2.2.2.2.2 ("0,0".toList) { row := 0, col := 0 }
    (by decide) (by decide) (by decide)

/-- C6: under the session invariant (remainingEmptyCells equals the number of
    empty cells), a successful move on a validated, previously empty,
    in-bounds cell sets exactly that cell to the mover's mark (querying it
    afterwards returns the placed mark), decreases remainingEmptyCells by
    exactly 1 so that it still counts the empty cells, and the counter never
    becomes negative. -/
theorem C6_update_roundtrip (g : Game) (input : Input)
    (hsq : isSquareBoard g.gameboard)
    (hinv : g.remainingEmptyCells = (countEmptyCells g.gameboard : Int))
    (hr0 : 0 ≤ input.row) (hrn : input.row < (g.gameboard.length : Int))
    (hc0 : 0 ≤ input.col) (hcn : input.col < (g.gameboard.length : Int))
    (hempty : cellAt g.gameboard input.row.toNat input.col.toNat = none) :
    cellAt (updateGame input g).gameboard input.row.toNat input.col.toNat =
      some (getPlayer g g.turn).name ∧
    (updateGame input g).remainingEmptyCells = g.remainingEmptyCells - 1 ∧
    (updateGame input g).remainingEmptyCells =
      (countEmptyCells (updateGame input g).gameboard : Int) ∧
    0 ≤ (updateGame input g).remainingEmptyCells := by
  have hr : input.row.toNat < g.gameboard.length := by omega
  have hrowmem : g.gameboard.getD input.row.toNat [] ∈ g.gameboard := by
    rw [List.getD_eq_getElem _ _ hr]
    exact List.getElem_mem hr
  have hrowlen : (g.gameboard.getD input.row.toNat []).length = g.gameboard.length :=
    hsq _ hrowmem
  have hc : input.col.toNat < (g.gameboard.getD input.row.toNat []).length := by
    rw [hrowlen]
    omega
  have hcount := countEmptyCells_set (x := (getPlayer g g.turn).name) hr hc hempty
  have hboard : (updateGame input g).gameboard =
      g.gameboard.set input.row.toNat
        ((g.gameboard.getD input.row.toNat []).set input.col.toNat
          (some (getPlayer g g.turn).name)) := rfl
  have hrem : (updateGame input g).remainingEmptyCells = g.remainingEmptyCells - 1 := rfl
  refine ⟨?_, hrem, ?_, ?_⟩
  · have h1 : (g.gameboard.set input.row.toNat
        ((g.gameboard.getD input.row.toNat []).set input.col.toNat
          (some (getPlayer g g.turn).name))).getD input.row.toNat [] =
        (g.gameboard.getD input.row.toNat []).set input.col.toNat
          (some (getPlayer g g.turn).name) := by
      rw [List.getD_eq_getElem _ _ (by rw [List.length_set]; exact hr)]
      rw [List.getElem_set, if_pos rfl]
    have h2 : ((g.gameboard.getD input.row.toNat []).set input.col.toNat
        (some (getPlayer g g.turn).name)).getD input.col.toNat none =
        some (getPlayer g g.turn).name := by
      rw [List.getD_eq_getElem _ _ (by rw [List.length_set]; exact hc)]
      rw [List.getElem_set, if_pos rfl]
    rw [hboard]
    unfold cellAt
    rw [h1, h2]
  · rw [hrem, hboard, hinv]
    omega
  · rw [hrem, hinv]
    omega

/-- C6 witness: placing X at (0,0) of the fresh 1×1 game gDemoTiny. -/
theorem C6_update_roundtrip_witness :
    cellAt (updateGame { row := 0, col := 0 } gDemoTiny).gameboard 0 0 = some 'X' ∧
    (updateGame { row := 0, col := 0 } gDemoTiny).remainingEmptyCells = 0 := by
  have h := C6_update_roundtrip gDemoTiny { row := 0, col := 0 }
    (by decide) (by decide) (by decide) (by decide) (by decide) (by decide) (by decide)
  exact ⟨h.1, by rw [h.2.1]; decide⟩

/-- C8: on an N×N board the diagonal transform yields exactly the 2N-1
    sequences whose d-th member collects the original cells (r, d-r) for r in
    [max(0, d-N+1), min(d, N-1)] (including the single-cell corners), and the
    anti-diagonal transform yields for every d in [0, 2N-2] the cells
    (r, N-1-d+r) for exactly those r with both coordinates in bounds; both
    transforms only read cellAt of the original board (they preserve cell
    values and, being pure functions of the board, mutate nothing). -/
theorem C8_transform_shapes (gb : Gameboard) (n : Nat)
    (hsq : isSquareBoard gb) (hn : gb.length = n) :
    (diagonalizeGameboard gb).length = 2 * n - 1 ∧
    (antiDiagonalizeGameboard gb).length = 2 * n - 1 ∧
    (∀ d, d < 2 * n - 1 →
      (diagonalizeGameboard gb).getD d [] = diagRowSpec gb n d ∧
      (antiDiagonalizeGameboard gb).getD d [] = antiDiagRowSpec gb n d) := by
  subst hn
  refine ⟨diagonalizeGameboard_length gb, antiDiagonalizeGameboard_length gb, ?_⟩
  intro d hd
  exact ⟨(diagonalizeGameboard_getD gb hd).trans (diagRowSrc_eq_spec rfl),
         (antiDiagonalizeGameboard_getD gb hd).trans (antiDiagRowSrc_eq_spec rfl)⟩

/-- C8 witness: the 2×2 board gbDemo2 has 3 diagonal and 3 anti-diagonal
    sequences and its middle sequences match the spec formulas. -/
theorem C8_transform_shapes_witness :
    (diagonalizeGameboard gbDemo2).length = 3 ∧
    (diagonalizeGameboard gbDemo2).getD 1 [] = diagRowSpec gbDemo2 2 1 ∧
    (antiDiagonalizeGameboard gbDemo2).getD 1 [] = antiDiagRowSpec gbDemo2 2 1 := by
  have h := C8_transform_shapes gbDemo2 2 (by decide) (by decide)
  exact ⟨h.1, (h.2.2 1 (by decide)).1, (h.2.2 1 (by decide)).2⟩

/-- C9 (amended): initGameboard size is a size×size grid of empty cells for
    every size ≥ 1, and the two session constructors build 3×3 and 10×10
    boards with the full empty-cell count; for size < 1 the source has no
    InvalidSize error — the loop simply produces a board with no rows. -/
theorem C9_board_creation (size : Nat) :
    (initGameboard size).length = size ∧
    (∀ row ∈ initGameboard size, row.length = size ∧ ∀ c ∈ row, c = none) ∧
    (initGame TIC_TAC_TOE).gameboard = initGameboard 3 ∧
    (initGame TIC_TAC_TOE).winCase = 3 ∧
    (initGame TIC_TAC_TOE).remainingEmptyCells = 9 ∧
    (initGame GOMOKU).gameboard = initGameboard 10 ∧
    (initGame GOMOKU).winCase = 5 ∧
    (initGame GOMOKU).remainingEmptyCells = 100 := by
  refine ⟨List.length_replicate _ _, ?_, by decide, by decide, by decide, by decide,
    by decide, by decide⟩
  intro row hrow
  have hrep := List.eq_of_mem_replicate hrow
  subst hrep
  exact ⟨List.length_replicate _ _, fun c hc => List.eq_of_mem_replicate hc⟩

/-- C9 counterexample to the claim as stated: creating a board of size 0
    (the only size < 1 expressible for the loop) does not fail — it returns
    the board with no rows, and no InvalidSize error exists anywhere in the
    construction path; session construction is a total function. -/
theorem C9_counterexample :
    initGameboard 0 = ([] : Gameboard) ∧ (initGame GOMOKU).gameboard.length = 10 := by
  refine ⟨rfl, ?_⟩
  decide

/-- C9 witness: the 3×3 instance. -/
theorem C9_board_creation_witness :
    (initGameboard 3).length = 3 ∧
    ([(none : Cell), none, none].length = 3 ∧ ∀ c ∈ [(none : Cell), none, none], c = none) :=
  ⟨(C9_board_creation 3).1, (C9_board_creation 3).2.1 [none, none, none] (by decide)⟩
